import Mathlib

/-!
Shallow embedding of `packages/preferences/src/browser/folders-preferences-provider.ts`
(class `FoldersPreferencesProvider`).

Modelling conventions:
* URIs, paths, preference names and config names are `String`s; `URI | undefined`
  and `string | undefined` become `Option String`.
* Preference values (`any` in the source) are modelled as `Nat` (`PrefValue`);
  nothing in this file depends on the value type.
* The JS insertion-ordered `Map<string, FolderPreferenceProvider>` becomes an
  insertion-ordered association list `List (String × FolderPreferenceProvider)`.
* External collaborators (`PreferenceConfigurations`, the `FolderPreferenceProvider`
  instances produced by the factory, `WorkspaceService.tryGetRoots`, and
  `Path.relativity` reached through `provider.folderUri.path.relativity(resourcePath)`)
  are not part of the repository source under scrutiny; they appear as abstract
  function-valued fields, so every theorem quantifies over their behaviour.
  In particular `relativity folderUri resourceUri` abstracts the composite
  `new URI(u).path` / `Path.relativity` computation of `@theia/core`.
-/

namespace Theia

/-- Preference values (`any` in the source). -/
abbrev PrefValue := Nat

/-- A workspace root as returned by `workspaceService.tryGetRoots()`; only its
`uri` is consumed by this class. -/
structure FileStat where
  uri : String

/-- One `FolderPreferenceProvider` (external collaborator built by the factory):
bound folder URI, resource-dependent `getConfigUri`, `getPreferences`,
`resolve` and `setPreference` capabilities, in the shapes the aggregate class
consumes them. -/
structure FolderPreferenceProvider where
  folderUri : String
  getConfigUri : Option String → Option String
  getPreferences : List (String × PrefValue)
  resolve : String → Option String → Option PrefValue × Option String
  setPreference : String → PrefValue → Option String → Bool

/-- The `PreferenceConfigurations` collaborator, restricted to the members this
class calls.  `getName`/`getPath`/`isConfigUri` take an `Option` because the
source occasionally feeds them a possibly-undefined URI. -/
structure PreferenceConfigurations where
  getUris : String → List String
  isConfigUri : Option String → Bool
  getName : Option String → String
  getPath : Option String → String
  isSectionName : String → Bool
  getConfigName : String

/-- State of a `FoldersPreferencesProvider` instance: the injected collaborators
plus the insertion-ordered `providers` map. -/
structure FoldersPreferencesProvider where
  roots : List FileStat
  configurations : PreferenceConfigurations
  relativity : String → String → Int
  createProvider : FileStat → String → FolderPreferenceProvider
  providers : List (String × FolderPreferenceProvider)

namespace FoldersPreferencesProvider

/-! ### `getProviders` (lines 160–179) -/

/-- One update of the running `folder = { relativity, uri }` record:
`if (relativity >= 0 && folder.relativity <= relativity) folder = { relativity, uri }`. -/
def foldersStep (rel : String → String → Int) (resourcePath : String)
    (folder : Int × Option String) (p : FolderPreferenceProvider) : Int × Option String :=
  let r := rel p.folderUri resourcePath
  if 0 ≤ r ∧ folder.1 ≤ r then (r, some p.folderUri) else folder

/-- `providers.set(uri, (providers.get(uri) || []).push(provider))` on the local
grouping map: append `p` to the bucket of key `k`, creating the bucket at the
end if absent (JS `Map.set` keeps the position of an existing key). -/
def groupAdd : List (String × List FolderPreferenceProvider) → String → FolderPreferenceProvider →
    List (String × List FolderPreferenceProvider)
  | [], k, p => [(k, [p])]
  | e :: m, k, p => if e.1 == k then (e.1, e.2 ++ [p]) :: m else e :: groupAdd m k p

/-- The single `for (const provider of this.providers.values())` loop of
`getProviders`: simultaneously groups providers by folder URI and keeps the
best `(relativity, uri)` seen so far. -/
def getProvidersLoop (rel : String → String → Int) (resourcePath : String) :
    List FolderPreferenceProvider → (Int × Option String) →
    List (String × List FolderPreferenceProvider) →
    (Int × Option String) × List (String × List FolderPreferenceProvider)
  | [], folder, acc => (folder, acc)
  | p :: rest, folder, acc =>
    getProvidersLoop rel resourcePath rest
      (foldersStep rel resourcePath folder p) (groupAdd acc p.folderUri p)

/-- `protected getProviders(resourceUri?)`: empty without a resource; otherwise
pick the folder of maximal relativity (the running record starts at
`{ relativity: -1 }`) and return its bucket, `[]` if no folder was chosen. -/
def getProviders (s : FoldersPreferencesProvider) : Option String → List FolderPreferenceProvider
  | none => []
  | some resourceUri =>
    let st := getProvidersLoop s.relativity resourceUri (s.providers.map Prod.snd) (-1, none) []
    match st.1.2 with
    | some uri => (List.lookup uri st.2).getD []
    | none => []

/-! ### `getDomain` (lines 86–88) -/

/-- `getDomain(): string[] { return this.workspaceService.tryGetRoots().map(root => root.uri); }` -/
def getDomain (s : FoldersPreferencesProvider) : List String :=
  s.roots.map FileStat.uri

/-! ### `getConfigUri` (lines 76–84) -/

/-- The `for (const provider of this.providers.values())` loop of `getConfigUri`. -/
def getConfigUriLoop (conf : PreferenceConfigurations) (resourceUri : Option String) :
    List FolderPreferenceProvider → Option String
  | [] => none
  | p :: rest =>
    let configUri := p.getConfigUri resourceUri
    if conf.isConfigUri configUri then configUri else getConfigUriLoop conf resourceUri rest

/-- `getConfigUri(resourceUri?)`: first provider-supplied config URI recognized
by `configurations.isConfigUri`, scanning the whole registry. -/
def getConfigUri (s : FoldersPreferencesProvider) (resourceUri : Option String) : Option String :=
  getConfigUriLoop s.configurations resourceUri (s.providers.map Prod.snd)

/-! ### `resolve` (lines 90–98) -/

/-- The `for (const provider of this.getProviders(resourceUri))` loop of `resolve`:
return the first `{value, configUri}` with `value !== undefined && configUri`. -/
def resolveLoop (preferenceName : String) (resourceUri : Option String) :
    List FolderPreferenceProvider → Option PrefValue × Option String
  | [] => (none, none)
  | p :: rest =>
    let vc := p.resolve preferenceName resourceUri
    if vc.1.isSome ∧ vc.2.isSome then vc else resolveLoop preferenceName resourceUri rest

/-- `resolve<T>(preferenceName, resourceUri?)`. -/
def resolve (s : FoldersPreferencesProvider) (preferenceName : String)
    (resourceUri : Option String) : Option PrefValue × Option String :=
  resolveLoop preferenceName resourceUri (getProviders s resourceUri)

/-! ### `getPreferences` (lines 100–115) -/

/-- `Object.assign(result, preferences)`: keys of `preferences` overwrite `result`. -/
def assignPrefs (result : String → Option PrefValue) (preferences : List (String × PrefValue)) :
    String → Option PrefValue :=
  fun k =>
    match List.lookup k preferences with
    | some v => some v
    | none => result k

/-- The `for (const provider of this.getProviders(resourceUri).reverse())` loop of
`getPreferences`, carrying the `collectedConfigs` set and the `result` object. -/
def getPreferencesLoop (conf : PreferenceConfigurations) (resourceUri : Option String) :
    List FolderPreferenceProvider → List String → (String → Option PrefValue) →
    String → Option PrefValue
  | [], _, result => result
  | p :: rest, collectedConfigs, result =>
    match p.getConfigUri resourceUri with
    | some configUri =>
      let configName := conf.getName (some configUri)
      if collectedConfigs.contains configName then
        getPreferencesLoop conf resourceUri rest collectedConfigs result
      else
        getPreferencesLoop conf resourceUri rest (collectedConfigs ++ [configName])
          (assignPrefs result p.getPreferences)
    | none => getPreferencesLoop conf resourceUri rest collectedConfigs result

/-- `getPreferences(resourceUri?)`, as the finite map `String → Option PrefValue`
it builds. -/
def getPreferences (s : FoldersPreferencesProvider) (resourceUri : Option String) :
    String → Option PrefValue :=
  getPreferencesLoop s.configurations resourceUri ((getProviders s resourceUri).reverse) []
    (fun _ => none)

/-! ### `setPreference` (lines 117–158)

The source builds a queue (`iterator`) of closures: for every candidate provider
whose resource-independent config name matches the target config name, an
"applicability" closure is pushed.  When invoked, that closure either returns the
provider (its `getConfigUri(resourceUri)` is defined) or pushes a second closure
to the back of the queue, which in turn either returns the provider (its config
path equals the reference `configPath`) or pushes a third, unconditional closure.
The queue is drained front-to-back (`iterator.shift()`), awaiting the returned
provider's own `setPreference` and stopping at the first success.

Each closure generation is modelled by a `WriteTask` constructor; the mutable
queue by the explicit task list threaded through `setPrefLoop`.  `setPrefLoop`
additionally records, in order, every provider whose write operation was
invoked, so that attempt order is observable. -/

/-- The three generations of deferred closures pushed onto `iterator`. -/
inductive WriteTask where
  | roundA (p : FolderPreferenceProvider)
  | roundB (p : FolderPreferenceProvider)
  | roundC (p : FolderPreferenceProvider)

/-- Weight of a task: how many further queue steps it can cause (itself plus
the closures it may push). -/
def WriteTask.weight : WriteTask → Nat
  | .roundA _ => 3
  | .roundB _ => 2
  | .roundC _ => 1

/-- Total weight of a task queue; the termination measure of `setPrefLoop`. -/
def queueWeight (l : List WriteTask) : Nat :=
  (l.map WriteTask.weight).sum

/-- The `while (next)` drain of the closure queue.  `configPath` is the value of
the captured `configPath` variable at drain time (it is only mutated during the
build loop, which has finished).  Returns the overall boolean result and the
ordered list of providers whose `setPreference` was invoked. -/
def setPrefLoop (conf : PreferenceConfigurations) (preferenceName : String) (value : PrefValue)
    (resourceUri configPath : Option String) :
    List WriteTask → Bool × List FolderPreferenceProvider
  | [] => (false, [])
  | .roundA p :: rest =>
    if (p.getConfigUri resourceUri).isSome then
      if p.setPreference preferenceName value resourceUri then (true, [p])
      else
        let ba := setPrefLoop conf preferenceName value resourceUri configPath rest
        (ba.1, p :: ba.2)
    else setPrefLoop conf preferenceName value resourceUri configPath (rest ++ [.roundB p])
  | .roundB p :: rest =>
    if some (conf.getPath (p.getConfigUri none)) == configPath then
      if p.setPreference preferenceName value resourceUri then (true, [p])
      else
        let ba := setPrefLoop conf preferenceName value resourceUri configPath rest
        (ba.1, p :: ba.2)
    else setPrefLoop conf preferenceName value resourceUri configPath (rest ++ [.roundC p])
  | .roundC p :: rest =>
    if p.setPreference preferenceName value resourceUri then (true, [p])
    else
      let ba := setPrefLoop conf preferenceName value resourceUri configPath rest
      (ba.1, p :: ba.2)
termination_by l => queueWeight l
decreasing_by
  all_goals simp [queueWeight, WriteTask.weight, List.map_append]
  all_goals omega

/-- The `for (const provider of providers)` build loop of `setPreference`:
computes the reference `configPath` (path of the first candidate with a
resource-specific config URI) and queues a `roundA` task for every candidate
whose resource-independent config name equals `configName`. -/
def buildStep (conf : PreferenceConfigurations) (configName : String)
    (resourceUri : Option String) (acc : Option String × List WriteTask)
    (p : FolderPreferenceProvider) : Option String × List WriteTask :=
  let configPath :=
    match acc.1 with
    | none => (p.getConfigUri resourceUri).map (fun configUri => conf.getPath (some configUri))
    | some cp => some cp
  let iter :=
    if conf.getName (p.getConfigUri none) == configName then acc.2 ++ [WriteTask.roundA p]
    else acc.2
  (configPath, iter)

def buildWriteQueue (conf : PreferenceConfigurations) (configName : String)
    (resourceUri : Option String) (providers : List FolderPreferenceProvider) :
    Option String × List WriteTask :=
  providers.foldl (buildStep conf configName resourceUri) (none, [])

/-- `async setPreference(preferenceName, value, resourceUri?)`, instrumented:
the first component is the returned boolean, the second the ordered list of
providers whose own write operation was attempted. -/
def setPreferenceRun (s : FoldersPreferencesProvider) (preferenceName : String)
    (value : PrefValue) (resourceUri : Option String) :
    Bool × List FolderPreferenceProvider :=
  let sectionName := (preferenceName.splitOn ".").headD ""
  let configName :=
    if s.configurations.isSectionName sectionName then sectionName
    else s.configurations.getConfigName
  let providers := getProviders s resourceUri
  let st := buildWriteQueue s.configurations configName resourceUri providers
  setPrefLoop s.configurations preferenceName value resourceUri st.1 st.2

/-- The boolean result of `setPreference` (what the source returns). -/
def setPreference (s : FoldersPreferencesProvider) (preferenceName : String)
    (value : PrefValue) (resourceUri : Option String) : Bool :=
  (setPreferenceRun s preferenceName value resourceUri).1

/-! ### `updateProviders` (lines 54–74)

`this.providers` is a JS `Map` iterated in insertion order; it is modelled as
the association list `List (String × FolderPreferenceProvider)` with the
`Map.has` / `Map.set` / `Map.get` / `Map.delete` operations below.  The JS
`Set` `toDelete` (initially the map's keys, hence duplicate-free) is a
`List String` from which `toDelete.delete(key)` removes by filtering. -/

/-- `Map.has(k)`. -/
def mapHas (m : List (String × FolderPreferenceProvider)) (k : String) : Bool :=
  m.any (fun e => e.1 == k)

/-- `Map.set(k, v)`: overwrite in place when the key exists, append otherwise. -/
def mapSet (m : List (String × FolderPreferenceProvider)) (k : String)
    (v : FolderPreferenceProvider) : List (String × FolderPreferenceProvider) :=
  if mapHas m k then m.map (fun e => if e.1 == k then (e.1, v) else e) else m ++ [(k, v)]

/-- `Map.get(k)`. -/
def mapGet (m : List (String × FolderPreferenceProvider)) (k : String) :
    Option FolderPreferenceProvider :=
  (m.find? (fun e => e.1 == k)).map Prod.snd

/-- `Map.delete(k)`. -/
def mapDelete (m : List (String × FolderPreferenceProvider)) (k : String) :
    List (String × FolderPreferenceProvider) :=
  m.filter (fun e => e.1 != k)

/-- Body of the inner `for (const configUri of this.configurations.getUris(...))`
iteration: remove the key from `toDelete` and create a provider when absent.
The state is `(toDelete, providers, created keys)`; the created-keys component
instruments provider creation. -/
def updateStep (s : FoldersPreferencesProvider) (folder : FileStat)
    (acc : List String × List (String × FolderPreferenceProvider) × List String)
    (configUri : String) :
    List String × List (String × FolderPreferenceProvider) × List String :=
  let key := configUri
  let toDelete := acc.1.filter (fun k => k != key)
  if mapHas acc.2.1 key then (toDelete, acc.2.1, acc.2.2)
  else (toDelete, mapSet acc.2.1 key (s.createProvider folder configUri), acc.2.2 ++ [key])

/-- Body of the final `for (const key of toDelete)` loop: look the key up, and
when present delete it from the map and dispose the provider.  The state is
`(providers, disposed keys)`; the disposed-keys component instruments disposal. -/
def deleteStep (acc : List (String × FolderPreferenceProvider) × List String) (key : String) :
    List (String × FolderPreferenceProvider) × List String :=
  match mapGet acc.1 key with
  | some _ => (mapDelete acc.1 key, acc.2 ++ [key])
  | none => acc

/-- `protected updateProviders(): void`, instrumented: returns the new
`providers` map together with the list of created keys and of disposed keys. -/
def updateProvidersRun (s : FoldersPreferencesProvider) :
    List (String × FolderPreferenceProvider) × List String × List String :=
  let toDelete := s.providers.map Prod.fst
  let st :=
    s.roots.foldl
      (fun acc folder => (s.configurations.getUris folder.uri).foldl (updateStep s folder) acc)
      (toDelete, s.providers, [])
  let md := st.1.foldl deleteStep (st.2.1, [])
  (md.1, st.2.2, md.2)

/-- The state transition `updateProviders` performs on `this.providers`. -/
def updateProviders (s : FoldersPreferencesProvider) : FoldersPreferencesProvider :=
  { s with providers := (updateProvidersRun s).1 }

/-! ### `init` readiness aggregation (lines 40–52)

The promise layer is modelled on settled outcomes: `PromiseResult Unit` is the
state of a readiness promise once it has settled.  `promiseCatchUnit` models
`promise.catch(e => console.error(e))` — a rejected promise is replaced by one
resolved with the handler's (unit) result, a resolved one stays resolved — and
`promiseAllUnit` models `Promise.all`, rejecting with the first rejection and
resolving otherwise.  `initReadyOutcome` is then the settled state of the
promise whose `.then` resolves `this._ready`, as a function of the settled
readiness outcomes of the providers live at `init` time. -/

/-- A settled promise of `α`. -/
inductive PromiseResult (α : Type) where
  | resolved (value : α)
  | rejected (error : String)

/-- `p.catch(e => console.error(e))` on a settled `Promise<void>`: always settles
resolved (the handler swallows the error and returns `undefined`). -/
def promiseCatchUnit : PromiseResult Unit → PromiseResult Unit :=
  fun _ => .resolved ()

/-- `Promise.all` on settled `Promise<void>`s: rejected with the first rejection
if any, resolved otherwise. -/
def promiseAllUnit (l : List (PromiseResult Unit)) : PromiseResult Unit :=
  match l.find? (fun r => match r with | .rejected _ => true | .resolved _ => false) with
  | some (.rejected e) => .rejected e
  | _ => .resolved ()

/-- Settled state of `Promise.all(readyPromises)` in `init`, where
`readyPromises` collects `provider.ready.catch(e => console.error(e))` for every
provider live at initialization time and `ready` settles with it
(`.then(() => this._ready.resolve())`). -/
def initReadyOutcome (settledReadiness : List (PromiseResult Unit)) : PromiseResult Unit :=
  promiseAllUnit (settledReadiness.map promiseCatchUnit)

/-! ### Specification-side definitions

The following definitions transcribe the *spec's* description of the behaviour
(target config name, reference path, the three write rounds, the contributor
set of `getPreferences`, linear first-success attempt chains).  The claim
theorems relate the code-side functions above to these. -/

/-- Spec §4.3 step 1: the substring of the setting name before the first `.`,
if it is a recognized section name, else the default config name. -/
def targetConfigName (conf : PreferenceConfigurations) (preferenceName : String) : String :=
  let sectionName := (preferenceName.splitOn ".").headD ""
  if conf.isSectionName sectionName then sectionName else conf.getConfigName

/-- Spec §4.3 step 3: the path of the config identity of the first candidate
(in canonical order) that yields a config identity for this resource. -/
def referencePath (conf : PreferenceConfigurations) (resourceUri : Option String)
    (providers : List FolderPreferenceProvider) : Option String :=
  providers.findSome?
    (fun p => (p.getConfigUri resourceUri).map (fun configUri => conf.getPath (some configUri)))

/-- "yields a usable Config Identity for this resource". -/
def appliesToResource (resourceUri : Option String) (p : FolderPreferenceProvider) : Bool :=
  (p.getConfigUri resourceUri).isSome

/-- Candidates whose resource-independent config name equals the target name. -/
def matchingProviders (conf : PreferenceConfigurations) (configName : String)
    (providers : List FolderPreferenceProvider) : List FolderPreferenceProvider :=
  providers.filter (fun p => conf.getName (p.getConfigUri none) == configName)

/-- "its config path equals the reference path". -/
def pathEqualsRef (conf : PreferenceConfigurations) (configPath : Option String)
    (p : FolderPreferenceProvider) : Bool :=
  some (conf.getPath (p.getConfigUri none)) == configPath

/-- Spec §4.3 Round A: matching providers applicable to this specific resource,
in canonical order. -/
def roundAList (conf : PreferenceConfigurations) (configName : String)
    (resourceUri : Option String) (providers : List FolderPreferenceProvider) :
    List FolderPreferenceProvider :=
  (matchingProviders conf configName providers).filter (appliesToResource resourceUri)

/-- Spec §4.3 Round B: remaining matching providers whose config path equals the
reference path, in canonical order. -/
def roundBList (conf : PreferenceConfigurations) (configName : String)
    (resourceUri configPath : Option String) (providers : List FolderPreferenceProvider) :
    List FolderPreferenceProvider :=
  ((matchingProviders conf configName providers).filter
      (fun p => !appliesToResource resourceUri p)).filter
    (pathEqualsRef conf configPath)

/-- Spec §4.3 Round C: all remaining matching providers, in canonical order. -/
def roundCList (conf : PreferenceConfigurations) (configName : String)
    (resourceUri configPath : Option String) (providers : List FolderPreferenceProvider) :
    List FolderPreferenceProvider :=
  ((matchingProviders conf configName providers).filter
      (fun p => !appliesToResource resourceUri p)).filter
    (fun p => !pathEqualsRef conf configPath p)

/-- Linear early-exit attempt sequence: try each provider's write in order, stop
and report `(true, attempted so far)` at the first success, fall through to the
continuation `k` when the list is exhausted. -/
def attemptChain (write : FolderPreferenceProvider → Bool) :
    List FolderPreferenceProvider → Bool × List FolderPreferenceProvider →
    Bool × List FolderPreferenceProvider
  | [], k => k
  | p :: ps, k =>
    if write p then (true, [p])
    else
      let ba := attemptChain write ps k
      (ba.1, p :: ba.2)

/-- Config name a provider exposes for a resource (spec §4.2, merge dedup key). -/
def nameFor (conf : PreferenceConfigurations) (resourceUri : Option String)
    (p : FolderPreferenceProvider) : String :=
  conf.getName (p.getConfigUri resourceUri)

/-- Keep, scanning forward, only the first provider of each config name not
already in `seen`. -/
def keepFirstByName (conf : PreferenceConfigurations) (resourceUri : Option String) :
    List String → List FolderPreferenceProvider → List FolderPreferenceProvider
  | _, [] => []
  | seen, p :: ps =>
    let n := nameFor conf resourceUri p
    if seen.contains n then keepFirstByName conf resourceUri seen ps
    else p :: keepFirstByName conf resourceUri (seen ++ [n]) ps

/-- Spec §4.2: the providers that actually contribute to `getPreferences`, in
canonical (forward) order — among the candidates that yield a config identity
for the resource, exactly the canonical-forward-latest occurrence of each
config name. -/
def contributors (conf : PreferenceConfigurations) (resourceUri : Option String)
    (providers : List FolderPreferenceProvider) : List FolderPreferenceProvider :=
  (keepFirstByName conf resourceUri []
      ((providers.filter (appliesToResource resourceUri)).reverse)).reverse

/-- The (Folder, Config Identity) universe a reconciliation run enumerates:
every current root paired with each of its config URIs, in enumeration order. -/
def universePairs (s : FoldersPreferencesProvider) : List (FileStat × String) :=
  s.roots.flatMap (fun folder => (s.configurations.getUris folder.uri).map (fun u => (folder, u)))

/-! ### Concrete states used by counterexamples and divergence instances -/

/-- An inert provider bound to `folderUri`. -/
def trivialProvider (folderUri : String) : FolderPreferenceProvider where
  folderUri := folderUri
  getConfigUri := fun _ => none
  getPreferences := []
  resolve := fun _ _ => (none, none)
  setPreference := fun _ _ _ => false

/-- Inert configurations collaborator recognizing every defined URI. -/
def trivialConfigurations : PreferenceConfigurations where
  getUris := fun _ => []
  isConfigUri := fun u => u.isSome
  getName := fun _ => "settings"
  getPath := fun _ => ""
  isSectionName := fun _ => false
  getConfigName := "settings"

/-- Two folders `a` and `b`, one provider each, both with relativity `5` to the
resource `/x`: an equal-maximal-relativity tie between two distinct folders. -/
def tieState : FoldersPreferencesProvider where
  roots := []
  configurations := trivialConfigurations
  relativity := fun folderUri _ =>
    if folderUri == "file:///a" then 5 else if folderUri == "file:///b" then 5 else -1
  createProvider := fun _ _ => trivialProvider ""
  providers :=
    [("file:///a/settings", trivialProvider "file:///a"),
     ("file:///b/settings", trivialProvider "file:///b")]

/-- One workspace root that enumerates no config identity at all. -/
def bareRootState : FoldersPreferencesProvider where
  roots := [{ uri := "file:///f" }]
  configurations := trivialConfigurations
  relativity := fun _ _ => -1
  createProvider := fun _ _ => trivialProvider ""
  providers := []

/-- A provider that yields the same defined config URI for every resource. -/
def strayProvider : FolderPreferenceProvider where
  folderUri := "file:///other"
  getConfigUri := fun _ => some "file:///other/settings"
  getPreferences := []
  resolve := fun _ _ => (none, none)
  setPreference := fun _ _ _ => false

/-- A single provider whose folder does not contain the resource `/proj/x`
(negative relativity) but which supplies a recognized config URI for it. -/
def strayProviderState : FoldersPreferencesProvider where
  roots := []
  configurations := trivialConfigurations
  relativity := fun _ _ => -1
  createProvider := fun _ _ => trivialProvider ""
  providers := [("file:///other/settings", strayProvider)]

/-! ## General helper lemmas -/

theorem length_filter_partition {α} (p : α → Bool) (l : List α) :
    (l.filter p).length + (l.filter (fun a => !p a)).length = l.length := by
  induction l with
  | nil => rfl
  | cons a l ih => by_cases h : p a <;> simp [List.filter_cons, h] <;> omega

/-! ## C8: absent resource URI is a defined degenerate case -/

/-- C8: when no resource URI is supplied, candidate selection (`getProviders`)
returns the empty list and `resolve` returns no value and no config URI; both
are total functions, so no error is raised. -/
theorem no_resource_is_degenerate_not_error (s : FoldersPreferencesProvider)
    (preferenceName : String) :
    getProviders s none = [] ∧ resolve s preferenceName none = (none, none) :=
  ⟨rfl, rfl⟩

/-! ## C7: readiness aggregation tolerates provider failure -/

/-- C7: the registry's `ready` future settles resolved for every combination of
settled provider readiness outcomes: a provider whose readiness future fails
neither prevents `ready` from resolving nor propagates its error, because each
readiness promise is routed through `catch` before `Promise.all`. -/
theorem ready_resolves_despite_provider_failure
    (settledReadiness : List (PromiseResult Unit)) :
    initReadyOutcome settledReadiness = .resolved () := by
  unfold initReadyOutcome promiseAllUnit
  have h : (settledReadiness.map promiseCatchUnit).find?
      (fun r => match r with | .rejected _ => true | .resolved _ => false) = none := by
    rw [List.find?_eq_none]
    intro x hx
    rcases List.mem_map.mp hx with ⟨y, _, rfl⟩
    simp [promiseCatchUnit]
  rw [h]

/-! ## C5: `getDomain` -/

/-- C5 counterexample: in a reconciled state whose only workspace root
enumerates no config identity, `getDomain` still reports that root, while the
provider map is empty, so no live provider is bound to any folder at all: the
claimed identification of the domain with the bound-folder set fails. -/
theorem getDomain_unbound_folder_counterexample :
    getDomain (updateProviders bareRootState) = ["file:///f"] ∧
    (updateProviders bareRootState).providers = [] :=
  ⟨rfl, rfl⟩

/-- C5 (amended): `getDomain` returns exactly the URIs of the folders currently
reported by the workspace service (`tryGetRoots`), independently of the
provider map; this list may include folders to which no live provider is bound. -/
theorem getDomain_eq_workspace_roots (s : FoldersPreferencesProvider)
    (otherProviders : List (String × FolderPreferenceProvider)) :
    getDomain s = s.roots.map FileStat.uri ∧
    getDomain { s with providers := otherProviders } = getDomain s :=
  ⟨rfl, rfl⟩

/-! ## C10: `getConfigUri` scans the whole registry -/

theorem getConfigUriLoop_eq_find? (conf : PreferenceConfigurations)
    (resourceUri : Option String) (l : List FolderPreferenceProvider) :
    getConfigUriLoop conf resourceUri l =
      match l.find? (fun p => conf.isConfigUri (p.getConfigUri resourceUri)) with
      | some p => p.getConfigUri resourceUri
      | none => none := by
  induction l with
  | nil => rfl
  | cons p rest ih =>
    by_cases h : conf.isConfigUri (p.getConfigUri resourceUri) <;>
      simp [getConfigUriLoop, List.find?_cons, h, ih]

/-- C10: the aggregate `getConfigUri` iterates every registered provider in
canonical order — with no restriction to the most-specific containing folder —
returning the first provider-supplied config URI that `configurations`
recognizes; consequently, on `strayProviderState` it returns a config identity
of a folder with negative relativity to the resource (a folder not containing
it), while `resolve` and `getPreferences`, which only consult the
most-specific containing folder's providers, see no candidate at all. -/
theorem getConfigUri_scans_all_providers_divergence :
    (∀ (s : FoldersPreferencesProvider) (resourceUri : Option String),
        getConfigUri s resourceUri =
          match (s.providers.map Prod.snd).find?
              (fun p => s.configurations.isConfigUri (p.getConfigUri resourceUri)) with
          | some p => p.getConfigUri resourceUri
          | none => none) ∧
    getConfigUri strayProviderState (some "/proj/x") = some "file:///other/settings" ∧
    strayProviderState.relativity "file:///other" "/proj/x" < 0 ∧
    getProviders strayProviderState (some "/proj/x") = [] ∧
    resolve strayProviderState "editor.tabSize" (some "/proj/x") = (none, none) ∧
    getPreferences strayProviderState (some "/proj/x") "editor.tabSize" = none :=
  ⟨fun s resourceUri => getConfigUriLoop_eq_find? s.configurations resourceUri _,
    rfl, by decide, rfl, rfl, rfl⟩

/-! ## C4: `resolve` is first-match-wins in forward canonical order -/

theorem resolveLoop_eq_find? (preferenceName : String) (resourceUri : Option String)
    (l : List FolderPreferenceProvider) :
    resolveLoop preferenceName resourceUri l =
      match l.find? (fun p => (p.resolve preferenceName resourceUri).1.isSome &&
          (p.resolve preferenceName resourceUri).2.isSome) with
      | some p => p.resolve preferenceName resourceUri
      | none => (none, none) := by
  induction l with
  | nil => rfl
  | cons p rest ih =>
    by_cases h1 : (p.resolve preferenceName resourceUri).1.isSome <;>
      by_cases h2 : (p.resolve preferenceName resourceUri).2.isSome <;>
      simp [resolveLoop, List.find?_cons, h1, h2, ih]

/-- C4: `resolve` scans the candidates from `getProviders` in forward canonical
order and returns the `{value, configUri}` of the first provider whose own
`resolve` yields both a defined value and a defined config URI; when no
candidate satisfies both conditions it returns no value and no identity. -/
theorem resolve_first_match_wins (s : FoldersPreferencesProvider)
    (preferenceName : String) (resourceUri : Option String) :
    resolve s preferenceName resourceUri =
      match (getProviders s resourceUri).find?
          (fun p => (p.resolve preferenceName resourceUri).1.isSome &&
            (p.resolve preferenceName resourceUri).2.isSome) with
      | some p => p.resolve preferenceName resourceUri
      | none => (none, none) :=
  resolveLoop_eq_find? preferenceName resourceUri _

/-! ## C3: `getPreferences` merge semantics -/

theorem getPreferencesLoop_eq (conf : PreferenceConfigurations) (resourceUri : Option String)
    (l : List FolderPreferenceProvider) (seen : List String)
    (res : String → Option PrefValue) (k : String) :
    getPreferencesLoop conf resourceUri l seen res k =
      match ((keepFirstByName conf resourceUri seen
          (l.filter (appliesToResource resourceUri))).reverse).findSome?
          (fun p => List.lookup k p.getPreferences) with
      | some v => some v
      | none => res k := by
  induction l generalizing seen res with
  | nil => simp [getPreferencesLoop, keepFirstByName]
  | cons p rest ih =>
    cases hcu : p.getConfigUri resourceUri with
    | none =>
      have happ : appliesToResource resourceUri p = false := by
        simp [appliesToResource, hcu]
      simp only [getPreferencesLoop, hcu, List.filter_cons, happ]
      exact ih seen res
    | some configUri =>
      have happ : appliesToResource resourceUri p = true := by
        simp [appliesToResource, hcu]
      have hname : nameFor conf resourceUri p = conf.getName (some configUri) := by
        simp [nameFor, hcu]
      simp only [getPreferencesLoop, hcu, List.filter_cons, happ, if_pos,
        keepFirstByName, hname]
      by_cases hseen : seen.contains (conf.getName (some configUri))
      · simp only [hseen, if_pos]
        exact ih seen res
      · simp only [hseen, Bool.false_eq_true, if_false, List.reverse_cons,
          List.findSome?_append]
        rw [ih]
        cases hfs : ((keepFirstByName conf resourceUri
            (seen ++ [conf.getName (some configUri)])
            (rest.filter (appliesToResource resourceUri))).reverse).findSome?
            (fun q => List.lookup k q.getPreferences) with
        | some v => simp [hfs, Option.or]
        | none =>
          simp only [hfs, Option.none_or]
          simp [List.findSome?, assignPrefs]
          cases List.lookup k p.getPreferences <;> simp

/-- C3: for every resource, `getPreferences` merges the candidates so that the
value of key `k` is supplied by the canonical-forward-earliest *contributor*
defining `k`, where the contributors are exactly one provider per config name —
the canonical-forward-latest occurrence, among the candidates that yield a
config identity for the resource, of each name.  In particular a provider
earlier in canonical order wins any key conflict against a later provider of a
distinct config name, and same-name providers contribute only through their
forward-latest identity-yielding occurrence. -/
theorem getPreferences_forward_priority_dedup (s : FoldersPreferencesProvider)
    (resourceUri : Option String) (k : String) :
    getPreferences s resourceUri k =
      (contributors s.configurations resourceUri (getProviders s resourceUri)).findSome?
        (fun p => List.lookup k p.getPreferences) := by
  unfold getPreferences contributors
  rw [getPreferencesLoop_eq, List.filter_reverse]
  cases hfs : ((keepFirstByName s.configurations resourceUri []
      (((getProviders s resourceUri).filter (appliesToResource resourceUri)).reverse)).reverse).findSome?
      (fun p => List.lookup k p.getPreferences) <;> simp [hfs]

/-! ## C1: candidate selection `getProviders` -/

theorem getProvidersLoop_eq (rel : String → String → Int) (resourcePath : String)
    (l : List FolderPreferenceProvider) (folder : Int × Option String)
    (acc : List (String × List FolderPreferenceProvider)) :
    getProvidersLoop rel resourcePath l folder acc =
      (l.foldl (foldersStep rel resourcePath) folder,
        l.foldl (fun m p => groupAdd m p.folderUri p) acc) := by
  induction l generalizing folder acc with
  | nil => rfl
  | cons p rest ih => simp [getProvidersLoop, ih, List.foldl_cons]

theorem lookup_groupAdd (m : List (String × List FolderPreferenceProvider)) (k : String)
    (p : FolderPreferenceProvider) (u : String) :
    List.lookup u (groupAdd m k p) =
      if u = k then some (((List.lookup u m).getD []) ++ [p]) else List.lookup u m := by
  induction m with
  | nil =>
    by_cases h : u = k
    · subst h
      simp [groupAdd, List.lookup]
    · have hb : (u == k) = false := beq_eq_false_iff_ne.mpr h
      simp [groupAdd, List.lookup, hb, h]
  | cons e m ih =>
    obtain ⟨ek, ev⟩ := e
    by_cases hek : ek = k
    · subst hek
      by_cases hu : u = ek
      · subst hu
        simp [groupAdd, List.lookup]
      · have hb : (u == ek) = false := beq_eq_false_iff_ne.mpr hu
        simp [groupAdd, List.lookup, hb, hu]
    · have hbek : (ek == k) = false := beq_eq_false_iff_ne.mpr hek
      by_cases hu : u = ek
      · subst hu
        have huk : ¬(u = k) := hek
        simp [groupAdd, hbek, List.lookup, huk]
      · have hbu : (u == ek) = false := beq_eq_false_iff_ne.mpr hu
        simp [groupAdd, hbek, List.lookup, hbu, ih]

theorem lookup_groupFold (l : List FolderPreferenceProvider)
    (acc : List (String × List FolderPreferenceProvider)) (u : String) :
    (List.lookup u (l.foldl (fun m p => groupAdd m p.folderUri p) acc)).getD [] =
      (List.lookup u acc).getD [] ++ l.filter (fun p => p.folderUri == u) := by
  induction l generalizing acc with
  | nil => simp
  | cons p rest ih =>
    rw [List.foldl_cons, ih, lookup_groupAdd]
    by_cases h : u = p.folderUri
    · have hb : (p.folderUri == u) = true := by simp [h]
      simp [h, hb, List.filter_cons, List.append_assoc]
    · have hb : (p.folderUri == u) = false :=
        beq_eq_false_iff_ne.mpr (fun hh => h hh.symm)
      simp [h, hb, List.filter_cons]

theorem foldersStep_characterization (rel : String → String → Int) (resourcePath : String)
    (l : List FolderPreferenceProvider) :
    (l.foldl (foldersStep rel resourcePath) (-1, none) = ((-1 : Int), (none : Option String)) ∧
      ∀ p ∈ l, rel p.folderUri resourcePath < 0) ∨
    (∃ l₁ p l₂, l = l₁ ++ p :: l₂ ∧ 0 ≤ rel p.folderUri resourcePath ∧
      (∀ q ∈ l, rel q.folderUri resourcePath ≤ rel p.folderUri resourcePath) ∧
      (∀ q ∈ l₂, rel q.folderUri resourcePath < rel p.folderUri resourcePath) ∧
      l.foldl (foldersStep rel resourcePath) (-1, none) =
        (rel p.folderUri resourcePath, some p.folderUri)) := by
  induction l using List.reverseRecOn with
  | nil => exact Or.inl ⟨rfl, by simp⟩
  | append_singleton l q ih =>
    rw [List.foldl_append]
    rcases ih with ⟨heq, hneg⟩ | ⟨l₁, p, l₂, hsplit, hpos, hmax, hlast, heq⟩
    · rw [heq]
      by_cases hq : 0 ≤ rel q.folderUri resourcePath
      · refine Or.inr ⟨l, q, [], by simp, hq, ?_, by simp, ?_⟩
        · intro x hx
          rcases List.mem_append.mp hx with hx | hx
          · exact le_trans (le_of_lt (hneg x hx)) hq
          · simp only [List.mem_singleton] at hx
            subst hx
            exact le_refl _
        · simp only [List.foldl_cons, List.foldl_nil, foldersStep]
          rw [if_pos ⟨hq, by omega⟩]
      · refine Or.inl ⟨?_, ?_⟩
        · simp only [List.foldl_cons, List.foldl_nil, foldersStep]
          rw [if_neg (by omega)]
        · intro x hx
          rcases List.mem_append.mp hx with hx | hx
          · exact hneg x hx
          · simp only [List.mem_singleton] at hx
            subst hx
            omega
    · rw [heq]
      by_cases hq : 0 ≤ rel q.folderUri resourcePath ∧
          rel p.folderUri resourcePath ≤ rel q.folderUri resourcePath
      · refine Or.inr ⟨l, q, [], by simp, hq.1, ?_, by simp, ?_⟩
        · intro x hx
          rcases List.mem_append.mp hx with hx | hx
          · exact le_trans (hmax x hx) hq.2
          · simp only [List.mem_singleton] at hx
            subst hx
            exact le_refl _
        · simp only [List.foldl_cons, List.foldl_nil, foldersStep]
          rw [if_pos ⟨hq.1, hq.2⟩]
      · refine Or.inr ⟨l₁, p, l₂ ++ [q], by rw [hsplit]; simp, hpos, ?_, ?_, ?_⟩
        · intro x hx
          rcases List.mem_append.mp hx with hx | hx
          · exact hmax x hx
          · simp only [List.mem_singleton] at hx
            subst hx
            omega
        · intro x hx
          rcases List.mem_append.mp hx with hx | hx
          · exact hlast x hx
          · simp only [List.mem_singleton] at hx
            subst hx
            omega
        · simp only [List.foldl_cons, List.foldl_nil, foldersStep]
          rw [if_neg hq]

/-- C1 (amended): for a non-empty resource URI, `getProviders` returns either
the empty list — when no provider's folder has non-negative relativity to the
resource — or all providers, in canonical order, bound to the folder of a
provider `p` whose relativity is maximal, where `p` is the *last* provider in
canonical order attaining that maximum (every provider after `p` scores
strictly lower): on an equal-maximal-relativity tie between two folders the
folder seen last in canonical order is chosen, not the first. -/
theorem getProviders_max_relativity_last_tie (s : FoldersPreferencesProvider)
    (resourceUri : String) :
    (getProviders s (some resourceUri) = [] ∧
      ∀ p ∈ s.providers.map Prod.snd, s.relativity p.folderUri resourceUri < 0) ∨
    (∃ l₁ p l₂, s.providers.map Prod.snd = l₁ ++ p :: l₂ ∧
      0 ≤ s.relativity p.folderUri resourceUri ∧
      (∀ q ∈ s.providers.map Prod.snd,
        s.relativity q.folderUri resourceUri ≤ s.relativity p.folderUri resourceUri) ∧
      (∀ q ∈ l₂, s.relativity q.folderUri resourceUri < s.relativity p.folderUri resourceUri) ∧
      getProviders s (some resourceUri) =
        (s.providers.map Prod.snd).filter (fun q => q.folderUri == p.folderUri)) := by
  rcases foldersStep_characterization s.relativity resourceUri (s.providers.map Prod.snd) with
    ⟨heq, hneg⟩ | ⟨l₁, p, l₂, hsplit, hpos, hmax, hlast, heq⟩
  · refine Or.inl ⟨?_, hneg⟩
    simp only [getProviders, getProvidersLoop_eq, heq]
  · refine Or.inr ⟨l₁, p, l₂, hsplit, hpos, hmax, hlast, ?_⟩
    simp only [getProviders, getProvidersLoop_eq, heq]
    have := lookup_groupFold (s.providers.map Prod.snd) [] p.folderUri
    simpa using this

/-- C1 counterexample: in `tieState` the folders `file:///a` (seen first) and
`file:///b` (seen second) have the same maximal relativity `5` to `/x`, yet
`getProviders` returns the providers of `file:///b`: the claim's
first-seen-in-canonical-order tie-break is false on the code. -/
theorem getProviders_tie_first_seen_false :
    (getProviders tieState (some "/x")).map FolderPreferenceProvider.folderUri =
      ["file:///b"] ∧
    tieState.relativity "file:///a" "/x" = 5 ∧
    tieState.relativity "file:///b" "/x" = 5 ∧
    tieState.providers.map (fun e => e.2.folderUri) = ["file:///a", "file:///b"] :=
  ⟨by decide, by decide, by decide, by decide⟩

/-! ## C2 and C9: `setPreference` round structure -/

theorem attemptChain_append (w : FolderPreferenceProvider → Bool)
    (l₁ l₂ : List FolderPreferenceProvider) (k : Bool × List FolderPreferenceProvider) :
    attemptChain w (l₁ ++ l₂) k = attemptChain w l₁ (attemptChain w l₂ k) := by
  induction l₁ with
  | nil => rfl
  | cons p ps ih => by_cases h : w p <;> simp [attemptChain, h, ih]

theorem buildStep_foldl (conf : PreferenceConfigurations) (configName : String)
    (resourceUri : Option String) (l : List FolderPreferenceProvider)
    (acc : Option String × List WriteTask) :
    l.foldl (buildStep conf configName resourceUri) acc =
      (acc.1.or (referencePath conf resourceUri l),
        acc.2 ++ (matchingProviders conf configName l).map WriteTask.roundA) := by
  induction l generalizing acc with
  | nil => simp [referencePath, matchingProviders]
  | cons p rest ih =>
    rw [List.foldl_cons, ih]
    refine Prod.ext ?_ ?_
    · show (buildStep conf configName resourceUri acc p).1.or
        (referencePath conf resourceUri rest) = _
      cases hacc : acc.1 with
      | some cp => simp [buildStep, hacc, Option.or]
      | none =>
        cases hcu : p.getConfigUri resourceUri with
        | none => simp [buildStep, hacc, hcu, referencePath, List.findSome?_cons]
        | some configUri => simp [buildStep, hacc, hcu, referencePath, List.findSome?_cons, Option.or]
    · show (buildStep conf configName resourceUri acc p).2 ++ _ = _
      by_cases h : conf.getName (p.getConfigUri none) == configName
      · simp [buildStep, h, matchingProviders, List.filter_cons, List.append_assoc]
      · simp [buildStep, h, matchingProviders, List.filter_cons]

theorem buildWriteQueue_eq (conf : PreferenceConfigurations) (configName : String)
    (resourceUri : Option String) (l : List FolderPreferenceProvider) :
    buildWriteQueue conf configName resourceUri l =
      (referencePath conf resourceUri l,
        (matchingProviders conf configName l).map WriteTask.roundA) := by
  unfold buildWriteQueue
  rw [buildStep_foldl]
  simp [Option.or]

theorem setPrefLoop_roundC (conf : PreferenceConfigurations) (preferenceName : String)
    (value : PrefValue) (resourceUri configPath : Option String)
    (cs : List FolderPreferenceProvider) :
    setPrefLoop conf preferenceName value resourceUri configPath (cs.map WriteTask.roundC) =
      attemptChain (fun p => p.setPreference preferenceName value resourceUri) cs (false, []) := by
  induction cs with
  | nil => simp [setPrefLoop, attemptChain]
  | cons c cs ih =>
    by_cases h : c.setPreference preferenceName value resourceUri <;>
      simp [setPrefLoop, attemptChain, h, ih]

theorem setPrefLoop_roundB (conf : PreferenceConfigurations) (preferenceName : String)
    (value : PrefValue) (resourceUri configPath : Option String)
    (bs cs : List FolderPreferenceProvider) :
    setPrefLoop conf preferenceName value resourceUri configPath
        (bs.map WriteTask.roundB ++ cs.map WriteTask.roundC) =
      attemptChain (fun p => p.setPreference preferenceName value resourceUri)
        (bs.filter (pathEqualsRef conf configPath))
        (setPrefLoop conf preferenceName value resourceUri configPath
          ((cs ++ bs.filter (fun p => !pathEqualsRef conf configPath p)).map WriteTask.roundC)) := by
  induction bs generalizing cs with
  | nil => simp [attemptChain]
  | cons b bs ih =>
    by_cases h : some (conf.getPath (b.getConfigUri none)) == configPath
    · by_cases hw : b.setPreference preferenceName value resourceUri
      · simp [setPrefLoop, List.filter_cons, pathEqualsRef, h, hw, attemptChain]
      · simp [setPrefLoop, List.filter_cons, pathEqualsRef, h, hw, attemptChain, ih]
    · have hq : (bs.map WriteTask.roundB ++ cs.map WriteTask.roundC) ++ [WriteTask.roundC b] =
          bs.map WriteTask.roundB ++ (cs ++ [b]).map WriteTask.roundC := by
        simp
      have hfc : (b :: bs).filter (pathEqualsRef conf configPath) =
          bs.filter (pathEqualsRef conf configPath) := by
        simp [List.filter_cons, pathEqualsRef, h]
      have hfc' : (b :: bs).filter (fun p => !pathEqualsRef conf configPath p) =
          b :: bs.filter (fun p => !pathEqualsRef conf configPath p) := by
        simp [List.filter_cons, pathEqualsRef, h]
      calc setPrefLoop conf preferenceName value resourceUri configPath
            ((b :: bs).map WriteTask.roundB ++ cs.map WriteTask.roundC)
          = setPrefLoop conf preferenceName value resourceUri configPath
            ((bs.map WriteTask.roundB ++ cs.map WriteTask.roundC) ++ [WriteTask.roundC b]) := by
            simp [setPrefLoop, h]
        _ = setPrefLoop conf preferenceName value resourceUri configPath
            (bs.map WriteTask.roundB ++ (cs ++ [b]).map WriteTask.roundC) := by rw [hq]
        _ = attemptChain (fun p => p.setPreference preferenceName value resourceUri)
            (bs.filter (pathEqualsRef conf configPath))
            (setPrefLoop conf preferenceName value resourceUri configPath
              (((cs ++ [b]) ++ bs.filter (fun p => !pathEqualsRef conf configPath p)).map
                WriteTask.roundC)) := ih (cs ++ [b])
        _ = attemptChain (fun p => p.setPreference preferenceName value resourceUri)
            ((b :: bs).filter (pathEqualsRef conf configPath))
            (setPrefLoop conf preferenceName value resourceUri configPath
              ((cs ++ (b :: bs).filter (fun p => !pathEqualsRef conf configPath p)).map
                WriteTask.roundC)) := by
            rw [hfc, hfc']
            simp [List.append_assoc]

theorem setPrefLoop_roundA (conf : PreferenceConfigurations) (preferenceName : String)
    (value : PrefValue) (resourceUri configPath : Option String)
    (as bs : List FolderPreferenceProvider) :
    setPrefLoop conf preferenceName value resourceUri configPath
        (as.map WriteTask.roundA ++ bs.map WriteTask.roundB) =
      attemptChain (fun p => p.setPreference preferenceName value resourceUri)
        (as.filter (appliesToResource resourceUri))
        (setPrefLoop conf preferenceName value resourceUri configPath
          ((bs ++ as.filter (fun p => !appliesToResource resourceUri p)).map WriteTask.roundB)) := by
  induction as generalizing bs with
  | nil => simp [attemptChain]
  | cons a as ih =>
    by_cases h : (a.getConfigUri resourceUri).isSome
    · have hne : ¬a.getConfigUri resourceUri = none := fun hh => by simp [hh] at h
      have hfc : (a :: as).filter (appliesToResource resourceUri) =
          a :: as.filter (appliesToResource resourceUri) := by
        simp [List.filter_cons, appliesToResource, h]
      have hfc' : (a :: as).filter (fun p => !appliesToResource resourceUri p) =
          as.filter (fun p => !appliesToResource resourceUri p) := by
        simp [List.filter_cons, appliesToResource, h]
        exact hne
      rw [hfc, hfc']
      by_cases hw : a.setPreference preferenceName value resourceUri
      · simp [setPrefLoop, h, hw, attemptChain]
      · simp [setPrefLoop, h, hw, attemptChain, ih]
    · have hn : a.getConfigUri resourceUri = none := by
        cases hcu : a.getConfigUri resourceUri
        · rfl
        · exact absurd (by simp [hcu]) h
      have hq : (as.map WriteTask.roundA ++ bs.map WriteTask.roundB) ++ [WriteTask.roundB a] =
          as.map WriteTask.roundA ++ (bs ++ [a]).map WriteTask.roundB := by
        simp
      have hfc : (a :: as).filter (appliesToResource resourceUri) =
          as.filter (appliesToResource resourceUri) := by
        simp [List.filter_cons, appliesToResource, h]
      have hfc' : (a :: as).filter (fun p => !appliesToResource resourceUri p) =
          a :: as.filter (fun p => !appliesToResource resourceUri p) := by
        simp [List.filter_cons, appliesToResource, h]
        exact hn
      calc setPrefLoop conf preferenceName value resourceUri configPath
            ((a :: as).map WriteTask.roundA ++ bs.map WriteTask.roundB)
          = setPrefLoop conf preferenceName value resourceUri configPath
            ((as.map WriteTask.roundA ++ bs.map WriteTask.roundB) ++ [WriteTask.roundB a]) := by
            simp [setPrefLoop, hn]
        _ = setPrefLoop conf preferenceName value resourceUri configPath
            (as.map WriteTask.roundA ++ (bs ++ [a]).map WriteTask.roundB) := by rw [hq]
        _ = attemptChain (fun p => p.setPreference preferenceName value resourceUri)
            (as.filter (appliesToResource resourceUri))
            (setPrefLoop conf preferenceName value resourceUri configPath
              (((bs ++ [a]) ++ as.filter (fun p => !appliesToResource resourceUri p)).map
                WriteTask.roundB)) := ih (bs ++ [a])
        _ = attemptChain (fun p => p.setPreference preferenceName value resourceUri)
            ((a :: as).filter (appliesToResource resourceUri))
            (setPrefLoop conf preferenceName value resourceUri configPath
              ((bs ++ (a :: as).filter (fun p => !appliesToResource resourceUri p)).map
                WriteTask.roundB)) := by
            rw [hfc, hfc']
            simp [List.append_assoc]

theorem setPreferenceRun_eq_rounds (s : FoldersPreferencesProvider) (preferenceName : String)
    (value : PrefValue) (resourceUri : Option String) :
    setPreferenceRun s preferenceName value resourceUri =
      attemptChain (fun p => p.setPreference preferenceName value resourceUri)
        (roundAList s.configurations (targetConfigName s.configurations preferenceName)
            resourceUri (getProviders s resourceUri) ++
          roundBList s.configurations (targetConfigName s.configurations preferenceName)
            resourceUri (referencePath s.configurations resourceUri (getProviders s resourceUri))
            (getProviders s resourceUri) ++
          roundCList s.configurations (targetConfigName s.configurations preferenceName)
            resourceUri (referencePath s.configurations resourceUri (getProviders s resourceUri))
            (getProviders s resourceUri))
        (false, []) := by
  show setPrefLoop s.configurations preferenceName value resourceUri
      (buildWriteQueue s.configurations (targetConfigName s.configurations preferenceName)
        resourceUri (getProviders s resourceUri)).1
      (buildWriteQueue s.configurations (targetConfigName s.configurations preferenceName)
        resourceUri (getProviders s resourceUri)).2 = _
  rw [buildWriteQueue_eq]
  have h1 : (matchingProviders s.configurations
        (targetConfigName s.configurations preferenceName)
        (getProviders s resourceUri)).map WriteTask.roundA =
      (matchingProviders s.configurations (targetConfigName s.configurations preferenceName)
        (getProviders s resourceUri)).map WriteTask.roundA ++
        ([] : List FolderPreferenceProvider).map WriteTask.roundB := by
    simp
  rw [h1, setPrefLoop_roundA, List.nil_append]
  have h2 : ((matchingProviders s.configurations
        (targetConfigName s.configurations preferenceName)
        (getProviders s resourceUri)).filter
        (fun p => !appliesToResource resourceUri p)).map WriteTask.roundB =
      ((matchingProviders s.configurations (targetConfigName s.configurations preferenceName)
        (getProviders s resourceUri)).filter
        (fun p => !appliesToResource resourceUri p)).map WriteTask.roundB ++
        ([] : List FolderPreferenceProvider).map WriteTask.roundC := by
    simp
  rw [h2, setPrefLoop_roundB, List.nil_append, setPrefLoop_roundC]
  rw [attemptChain_append, attemptChain_append]
  rfl

/-- C2: `setPreference` derives the target config name, then attempts the
candidate providers whose config name matches it in exactly three rounds —
Round A (providers yielding a config identity for the resource), then, only
once Round A is exhausted without a successful write, Round B (remaining
matching providers whose config path equals the reference path), then Round C
(all remaining matching providers) — each round in canonical order, returning
`true` at the first provider whose own write reports success and `false` when
no provider in any round succeeds, including when the matching set is empty. -/
theorem setPreference_three_round_order (s : FoldersPreferencesProvider)
    (preferenceName : String) (value : PrefValue) (resourceUri : Option String) :
    setPreferenceRun s preferenceName value resourceUri =
      attemptChain (fun p => p.setPreference preferenceName value resourceUri)
        (roundAList s.configurations (targetConfigName s.configurations preferenceName)
            resourceUri (getProviders s resourceUri) ++
          roundBList s.configurations (targetConfigName s.configurations preferenceName)
            resourceUri (referencePath s.configurations resourceUri (getProviders s resourceUri))
            (getProviders s resourceUri) ++
          roundCList s.configurations (targetConfigName s.configurations preferenceName)
            resourceUri (referencePath s.configurations resourceUri (getProviders s resourceUri))
            (getProviders s resourceUri))
        (false, []) :=
  setPreferenceRun_eq_rounds s preferenceName value resourceUri

theorem attemptChain_attempts_start (w : FolderPreferenceProvider → Bool)
    (l : List FolderPreferenceProvider) :
    ∃ rest, l = (attemptChain w l (false, [])).2 ++ rest := by
  induction l with
  | nil => exact ⟨[], rfl⟩
  | cons p ps ih =>
    by_cases h : w p
    · exact ⟨ps, by simp [attemptChain, h]⟩
    · obtain ⟨rest, hrest⟩ := ih
      refine ⟨rest, ?_⟩
      simp only [attemptChain, h, Bool.false_eq_true, if_false, List.cons_append]
      exact congrArg (p :: ·) hrest

/-- C9: in every `setPreference` call the three rounds partition the matching
candidates — their lengths sum to the matching set's length, a provider
applicable to the resource is a member of neither Round B nor Round C (so an
applicable provider whose write fails is never retried, even if its config
path equals the reference path), and Rounds B and C are disjoint — and the
drained closure queue attempts exactly an initial segment of
Round A ++ Round B ++ Round C, so each matching candidate's write is invoked
at most once and the loop terminates (`setPreferenceRun` is a total function). -/
theorem setPreference_disjoint_rounds_single_attempt (s : FoldersPreferencesProvider)
    (preferenceName : String) (value : PrefValue) (resourceUri : Option String) :
    (∃ rest,
        roundAList s.configurations (targetConfigName s.configurations preferenceName)
            resourceUri (getProviders s resourceUri) ++
          roundBList s.configurations (targetConfigName s.configurations preferenceName)
            resourceUri (referencePath s.configurations resourceUri (getProviders s resourceUri))
            (getProviders s resourceUri) ++
          roundCList s.configurations (targetConfigName s.configurations preferenceName)
            resourceUri (referencePath s.configurations resourceUri (getProviders s resourceUri))
            (getProviders s resourceUri) =
          (setPreferenceRun s preferenceName value resourceUri).2 ++ rest) ∧
    (roundAList s.configurations (targetConfigName s.configurations preferenceName)
        resourceUri (getProviders s resourceUri)).length +
      (roundBList s.configurations (targetConfigName s.configurations preferenceName)
        resourceUri (referencePath s.configurations resourceUri (getProviders s resourceUri))
        (getProviders s resourceUri)).length +
      (roundCList s.configurations (targetConfigName s.configurations preferenceName)
        resourceUri (referencePath s.configurations resourceUri (getProviders s resourceUri))
        (getProviders s resourceUri)).length =
      (matchingProviders s.configurations (targetConfigName s.configurations preferenceName)
        (getProviders s resourceUri)).length ∧
    (∀ p, appliesToResource resourceUri p = true →
        p ∉ roundBList s.configurations (targetConfigName s.configurations preferenceName)
            resourceUri (referencePath s.configurations resourceUri (getProviders s resourceUri))
            (getProviders s resourceUri) ∧
        p ∉ roundCList s.configurations (targetConfigName s.configurations preferenceName)
            resourceUri (referencePath s.configurations resourceUri (getProviders s resourceUri))
            (getProviders s resourceUri)) ∧
    (∀ p, p ∈ roundBList s.configurations (targetConfigName s.configurations preferenceName)
          resourceUri (referencePath s.configurations resourceUri (getProviders s resourceUri))
          (getProviders s resourceUri) →
        p ∉ roundCList s.configurations (targetConfigName s.configurations preferenceName)
          resourceUri (referencePath s.configurations resourceUri (getProviders s resourceUri))
          (getProviders s resourceUri)) := by
  refine ⟨?_, ?_, ?_, ?_⟩
  · obtain ⟨rest, hrest⟩ := attemptChain_attempts_start
      (fun p => p.setPreference preferenceName value resourceUri)
      (roundAList s.configurations (targetConfigName s.configurations preferenceName)
          resourceUri (getProviders s resourceUri) ++
        roundBList s.configurations (targetConfigName s.configurations preferenceName)
          resourceUri (referencePath s.configurations resourceUri (getProviders s resourceUri))
          (getProviders s resourceUri) ++
        roundCList s.configurations (targetConfigName s.configurations preferenceName)
          resourceUri (referencePath s.configurations resourceUri (getProviders s resourceUri))
          (getProviders s resourceUri))
    refine ⟨rest, ?_⟩
    rw [setPreferenceRun_eq_rounds]
    exact hrest
  · have h1 := length_filter_partition (appliesToResource resourceUri)
      (matchingProviders s.configurations (targetConfigName s.configurations preferenceName)
        (getProviders s resourceUri))
    have h2 := length_filter_partition
      (pathEqualsRef s.configurations
        (referencePath s.configurations resourceUri (getProviders s resourceUri)))
      ((matchingProviders s.configurations (targetConfigName s.configurations preferenceName)
        (getProviders s resourceUri)).filter (fun p => !appliesToResource resourceUri p))
    unfold roundAList roundBList roundCList
    omega
  · intro p hp
    constructor
    · intro hmem
      have h1 := (List.mem_filter.mp ((List.mem_filter.mp hmem).1)).2
      simp [hp] at h1
    · intro hmem
      have h1 := (List.mem_filter.mp ((List.mem_filter.mp hmem).1)).2
      simp [hp] at h1
  · intro p hB hC
    have hpe := (List.mem_filter.mp hB).2
    have hnpe := (List.mem_filter.mp hC).2
    simp [hpe] at hnpe

/-! ## C6: reconciliation is idempotent -/

theorem beq_symm_str (a b : String) : (a == b) = (b == a) := by
  by_cases h : a = b
  · simp [h]
  · simp [beq_eq_false_iff_ne.mpr h, beq_eq_false_iff_ne.mpr (Ne.symm h)]

theorem mapHas_iff_mem_keys (m : List (String × FolderPreferenceProvider)) (u : String) :
    mapHas m u = true ↔ u ∈ m.map Prod.fst := by
  simp only [mapHas, List.any_eq_true, List.mem_map, beq_iff_eq]

theorem updateFold_flatten (s : FoldersPreferencesProvider) (roots : List FileStat)
    (acc : List String × List (String × FolderPreferenceProvider) × List String) :
    roots.foldl
        (fun acc folder => (s.configurations.getUris folder.uri).foldl (updateStep s folder) acc)
        acc =
      (roots.flatMap (fun folder =>
          (s.configurations.getUris folder.uri).map (fun u => (folder, u)))).foldl
        (fun acc pr => updateStep s pr.1 acc pr.2) acc := by
  induction roots generalizing acc with
  | nil => rfl
  | cons f roots ih =>
    rw [List.foldl_cons, List.flatMap_cons, List.foldl_append, List.foldl_map, ih]

theorem updateStep_foldl_toDelete (s : FoldersPreferencesProvider)
    (ps : List (FileStat × String)) (td : List String)
    (m : List (String × FolderPreferenceProvider)) (cr : List String) :
    (ps.foldl (fun acc pr => updateStep s pr.1 acc pr.2) (td, m, cr)).1 =
      td.filter (fun k => !(ps.any (fun pr => k == pr.2))) := by
  induction ps generalizing td m cr with
  | nil => simp
  | cons pr ps ih =>
    rw [List.foldl_cons]
    by_cases hm : mapHas m pr.2
    · have hstep : updateStep s pr.1 (td, m, cr) pr.2 =
          (td.filter (fun k => k != pr.2), m, cr) := by
        simp [updateStep, hm]
      rw [hstep, ih, List.filter_filter]
      refine List.filter_congr ?_
      intro k _
      simp [List.any_cons, Bool.not_or, Bool.and_comm, bne]
    · have hstep : updateStep s pr.1 (td, m, cr) pr.2 =
          (td.filter (fun k => k != pr.2),
            m ++ [(pr.2, s.createProvider pr.1 pr.2)], cr ++ [pr.2]) := by
        simp [updateStep, mapSet, hm]
      rw [hstep, ih, List.filter_filter]
      refine List.filter_congr ?_
      intro k _
      simp [List.any_cons, Bool.not_or, Bool.and_comm, bne]

theorem updateStep_foldl_mapHas (s : FoldersPreferencesProvider)
    (ps : List (FileStat × String)) (td : List String)
    (m : List (String × FolderPreferenceProvider)) (cr : List String) (u : String) :
    mapHas (ps.foldl (fun acc pr => updateStep s pr.1 acc pr.2) (td, m, cr)).2.1 u =
      (mapHas m u || ps.any (fun pr => pr.2 == u)) := by
  induction ps generalizing td m cr with
  | nil => simp
  | cons pr ps ih =>
    rw [List.foldl_cons]
    by_cases hm : mapHas m pr.2
    · have hstep : updateStep s pr.1 (td, m, cr) pr.2 =
          (td.filter (fun k => k != pr.2), m, cr) := by
        simp [updateStep, hm]
      rw [hstep, ih, List.any_cons]
      by_cases hu : pr.2 = u
      · subst hu
        simp [hm]
      · simp [beq_eq_false_iff_ne.mpr hu]
    · have hstep : updateStep s pr.1 (td, m, cr) pr.2 =
          (td.filter (fun k => k != pr.2),
            m ++ [(pr.2, s.createProvider pr.1 pr.2)], cr ++ [pr.2]) := by
        simp [updateStep, mapSet, hm]
      rw [hstep, ih, List.any_cons]
      have happ : mapHas (m ++ [(pr.2, s.createProvider pr.1 pr.2)]) u =
          (mapHas m u || (pr.2 == u)) := by
        simp [mapHas, List.any_append]
      rw [happ, Bool.or_assoc]

theorem updateStep_foldl_unchanged (s : FoldersPreferencesProvider)
    (ps : List (FileStat × String)) (td : List String)
    (m : List (String × FolderPreferenceProvider)) (cr : List String)
    (h : ∀ pr ∈ ps, mapHas m pr.2 = true) :
    (ps.foldl (fun acc pr => updateStep s pr.1 acc pr.2) (td, m, cr)).2.1 = m ∧
      (ps.foldl (fun acc pr => updateStep s pr.1 acc pr.2) (td, m, cr)).2.2 = cr := by
  induction ps generalizing td with
  | nil => exact ⟨rfl, rfl⟩
  | cons pr ps ih =>
    have hm : mapHas m pr.2 = true := h pr (List.mem_cons_self pr ps)
    rw [List.foldl_cons]
    have hstep : updateStep s pr.1 (td, m, cr) pr.2 =
        (td.filter (fun k => k != pr.2), m, cr) := by
      simp [updateStep, hm]
    rw [hstep]
    exact ih _ (fun q hq => h q (List.mem_cons_of_mem pr hq))

theorem mapGet_none_mapHas (m : List (String × FolderPreferenceProvider)) (k : String)
    (h : mapGet m k = none) : mapHas m k = false := by
  unfold mapGet at h
  rw [Option.map_eq_none'] at h
  rw [List.find?_eq_none] at h
  simp only [mapHas, List.any_eq_false]
  exact h

theorem mapHas_mapDelete (m : List (String × FolderPreferenceProvider)) (k u : String) :
    mapHas (mapDelete m k) u = (mapHas m u && !(k == u)) := by
  rw [Bool.eq_iff_iff]
  simp only [mapDelete, mapHas, List.any_filter, List.any_eq_true, Bool.and_eq_true,
    Bool.not_eq_true', beq_iff_eq, bne_iff_ne, ne_eq, beq_eq_false_iff_ne]
  constructor
  · rintro ⟨e, he, hne, rfl⟩
    exact ⟨⟨e, he, rfl⟩, fun hh => hne hh.symm⟩
  · rintro ⟨⟨e, he, rfl⟩, hne⟩
    exact ⟨e, he, fun hh => hne hh.symm, rfl⟩

theorem deleteStep_foldl_mapHas (td : List String)
    (m : List (String × FolderPreferenceProvider)) (d : List String) (u : String) :
    mapHas (td.foldl deleteStep (m, d)).1 u =
      (mapHas m u && !(td.any (fun k => k == u))) := by
  induction td generalizing m d with
  | nil => simp
  | cons k td ih =>
    rw [List.foldl_cons]
    cases hg : mapGet m k with
    | some p =>
      have hstep : deleteStep (m, d) k = (mapDelete m k, d ++ [k]) := by
        simp [deleteStep, hg]
      rw [hstep, ih, mapHas_mapDelete, List.any_cons]
      simp [Bool.not_or, Bool.and_assoc, Bool.and_comm, Bool.and_left_comm]
    | none =>
      have hstep : deleteStep (m, d) k = (m, d) := by
        simp [deleteStep, hg]
      rw [hstep, ih, List.any_cons]
      have hh := mapGet_none_mapHas m k hg
      by_cases hu : k = u
      · subst hu
        simp [hh]
      · simp [beq_eq_false_iff_ne.mpr hu]

theorem mapHas_updateProvidersRun (s : FoldersPreferencesProvider) (u : String) :
    mapHas (updateProvidersRun s).1 u =
      (universePairs s).any (fun pr => pr.2 == u) := by
  have hU : s.roots.flatMap (fun folder =>
      (s.configurations.getUris folder.uri).map (fun u => (folder, u))) = universePairs s := rfl
  simp only [updateProvidersRun]
  rw [updateFold_flatten, hU]
  rw [deleteStep_foldl_mapHas, updateStep_foldl_mapHas, updateStep_foldl_toDelete,
    List.any_filter]
  have hT : ((s.providers.map Prod.fst).any
        (fun k => !((universePairs s).any (fun pr => k == pr.2)) && (k == u))) =
      (mapHas s.providers u && !((universePairs s).any (fun pr => pr.2 == u))) := by
    rw [Bool.eq_iff_iff]
    simp only [List.any_eq_true, Bool.and_eq_true, Bool.not_eq_true', List.any_eq_false,
      beq_iff_eq, beq_eq_false_iff_ne, ne_eq, mapHas_iff_mem_keys]
    constructor
    · rintro ⟨k, hk, hnot, rfl⟩
      exact ⟨hk, fun pr hpr hh => (hnot pr hpr) hh.symm⟩
    · rintro ⟨hk, hnot⟩
      exact ⟨u, hk, fun pr hpr hh => (hnot pr hpr) hh.symm, rfl⟩
  rw [hT]
  cases hA : mapHas s.providers u <;>
    cases hB : (universePairs s).any (fun pr => pr.2 == u) <;> simp

/-- C6: reconciliation is idempotent — a second `updateProviders` run against
an unchanged folder/config universe creates zero providers, disposes zero
providers, and leaves the provider map (indeed the whole state) literally
unchanged. -/
theorem updateProviders_idempotent (s : FoldersPreferencesProvider) :
    updateProvidersRun (updateProviders s) = ((updateProviders s).providers, [], []) ∧
    updateProviders (updateProviders s) = updateProviders s := by
  have hpairs : universePairs (updateProviders s) = universePairs s := rfl
  have hprov : (updateProviders s).providers = (updateProvidersRun s).1 := rfl
  have hhas : ∀ pr ∈ universePairs (updateProviders s),
      mapHas (updateProviders s).providers pr.2 = true := by
    intro pr hpr
    rw [hprov, mapHas_updateProvidersRun]
    rw [hpairs] at hpr
    exact List.any_eq_true.mpr ⟨pr, hpr, by simp⟩
  have hU : (updateProviders s).roots.flatMap (fun folder =>
      ((updateProviders s).configurations.getUris folder.uri).map (fun u => (folder, u))) =
      universePairs (updateProviders s) := rfl
  have hmain : updateProvidersRun (updateProviders s) =
      ((updateProviders s).providers, [], []) := by
    simp only [updateProvidersRun]
    rw [updateFold_flatten, hU]
    obtain ⟨hm, hcr⟩ := updateStep_foldl_unchanged (updateProviders s)
      (universePairs (updateProviders s))
      ((updateProviders s).providers.map Prod.fst) (updateProviders s).providers [] hhas
    have htd : ((universePairs (updateProviders s)).foldl
        (fun acc pr => updateStep (updateProviders s) pr.1 acc pr.2)
        ((updateProviders s).providers.map Prod.fst, (updateProviders s).providers, [])).1 =
        [] := by
      rw [updateStep_foldl_toDelete]
      rw [List.filter_eq_nil_iff]
      intro k hk
      have hh : mapHas (updateProviders s).providers k = true :=
        (mapHas_iff_mem_keys _ k).mpr hk
      rw [hprov, mapHas_updateProvidersRun] at hh
      rw [hpairs]
      simp only [Bool.not_eq_true', Bool.not_eq_false]
      rcases List.any_eq_true.mp hh with ⟨pr, hpr, hpru⟩
      refine List.any_eq_true.mpr ⟨pr, hpr, ?_⟩
      rw [beq_symm_str]
      exact hpru
    rw [htd, hm, hcr]
    rfl
  refine ⟨hmain, ?_⟩
  show { updateProviders s with providers := (updateProvidersRun (updateProviders s)).1 } =
    updateProviders s
  rw [hmain]

end FoldersPreferencesProvider

end Theia
